import Mathlib

/-!
Shallow embedding of `testutil/retry/retry.go` (package `retry`): the
failure recorder `R`, the retry policies `Counter` and `Timer`, the
orchestration loop `run` (with its public wrappers `Run` / `RunWith`),
and the log deduplicator `dedup`.

Modelling conventions:
* Go durations (`time.Duration`) are nanosecond counts, embedded as `Nat`;
  `time.Time` instants are `Nat` timestamps and the nondeterministic
  `time.Now()` is an input stream `clock : Nat → Nat`, consumed once per
  `NextOr` call (the only place the source reads the clock).
* `runtime.Caller` is nondeterministic runtime information; it is embedded
  as an input `caller : Option (String × Nat)` (the `ok = false` branch of
  the source is `none`).
* `runtime.Goexit` terminates only the attempt's goroutine; the orchestrator
  joins on the worker via `sync.WaitGroup`.  An attempt body is therefore
  embedded as a list of recorder calls (`Attempt`), and its interpreter
  `runAttempt` stops at the first aborting call and returns the recorder
  state the orchestrator observes after the join.
* `fmt.Sprint` / `fmt.Sprintf` are external library calls; the fragment
  actually reachable here (default verbs, `%d`, `%%`, missing/extra
  operands, one level of `[]interface` slices) is modelled below.
* The retry loop of `run` is driven by a `fuel` parameter: the source loop
  has no intrinsic bound (a `Timer` whose deadline never passes can loop
  forever), so each theorem supplies enough fuel for the run it describes.
-/

/-- A flat Go `interface` value as passed to the variadic recorder methods:
the fragment of values the model needs (integers and strings). -/
inductive GoFlat where
  | fint (n : Int)
  | fstr (s : String)
deriving DecidableEq, Repr

/-- A Go operand as consumed by the `fmt` model: either a flat value or a
`[]interface` slice of flat values (the shape produced by passing a
variadic argument slice as one single operand). -/
inductive GoVal where
  | flat (v : GoFlat)
  | vslice (l : List GoFlat)
deriving DecidableEq, Repr

/-- Default (`%v`) formatting of a flat value, per the Go `fmt` package. -/
def GoFlat.fmtV : GoFlat → String
  | .fint n => toString n
  | .fstr s => s

/-- `%d` formatting of a flat value, per the Go `fmt` package: integers
print in decimal, a string operand yields a `%!d(string=...)` bad-verb
note. -/
def GoFlat.fmtD : GoFlat → String
  | .fint n => toString n
  | .fstr s => "%!d(string=" ++ s ++ ")"

/-- Whether a flat operand is a string (Go's `fmt.Sprint` omits the space
between adjacent operands when either is a string). -/
def GoFlat.isString : GoFlat → Bool
  | .fint _ => false
  | .fstr _ => true

/-- Space-separated concatenation, as Go `fmt` prints slice elements. -/
def spaceJoin : List String → String
  | [] => ""
  | [s] => s
  | s :: rest => s ++ " " ++ spaceJoin rest

/-- `%v` formatting of an operand: a slice prints as `[e1 e2 ...]`. -/
def GoVal.fmtV : GoVal → String
  | .flat v => v.fmtV
  | .vslice l => "[" ++ spaceJoin (l.map GoFlat.fmtV) ++ "]"

/-- `%d` formatting of an operand: a slice prints its elements with `%d`
inside brackets, so `%d` applied to the slice `[1]` yields `"[1]"`. -/
def GoVal.fmtD : GoVal → String
  | .flat v => v.fmtD
  | .vslice l => "[" ++ spaceJoin (l.map GoFlat.fmtD) ++ "]"

/-- Go type name of an operand, used by `fmt`'s `%!(EXTRA ...)` note. -/
def GoVal.typeName : GoVal → String
  | .flat (.fint _) => "int"
  | .flat (.fstr _) => "string"
  | .vslice _ => "[]interface \x7b\x7d"

/-- Model of `fmt.Sprint(args...)`: operands print with their default verb,
with a space inserted between two adjacent operands only when neither is a
string. -/
def gosprint : List GoFlat → String
  | [] => ""
  | [v] => v.fmtV
  | v :: w :: rest =>
    v.fmtV ++ (if v.isString || w.isString then "" else " ") ++ gosprint (w :: rest)

/-- Comma-separated `type=value` entries after the first one in Go `fmt`'s
`%!(EXTRA ...)` note. -/
def extraTail : List GoVal → String
  | [] => ""
  | v :: rest => ", " ++ v.typeName ++ "=" ++ v.fmtV ++ extraTail rest

/-- Go `fmt`'s trailing note for operands left over after the format string
is exhausted: `%!(EXTRA type=value, ...)`. -/
def extraNote : List GoVal → String
  | [] => ""
  | v :: rest =>
    "%!(EXTRA " ++ v.typeName ++ "=" ++ v.fmtV ++ extraTail rest ++ ")"

/-- State of the `gosprintf` scanner: output so far, remaining operands,
and whether a `%` is pending a verb. -/
structure FmtState where
  out : String
  args : List GoVal
  pending : Bool
deriving DecidableEq, Repr

/-- One step of the `gosprintf` scanner over the format string. -/
def fmtStep (st : FmtState) (c : Char) : FmtState :=
  if st.pending then
    if c = 'd' then
      match st.args with
      | [] => { out := st.out ++ "%!d(MISSING)", args := [], pending := false }
      | v :: vs => { out := st.out ++ v.fmtD, args := vs, pending := false }
    else if c = '%' then
      { st with out := st.out ++ "%", pending := false }
    else
      { st with out := st.out ++ "%!" ++ String.mk [c] ++ "(NOVERB)", pending := false }
  else if c = '%' then
    { st with pending := true }
  else
    { st with out := st.out ++ String.mk [c] }

/-- Model of `fmt.Sprintf(format, operands)` for the fragment used by the
recorder: literal characters, the `%d` verb, `%%`, a missing-operand note,
and the `%!(EXTRA ...)` note for unconsumed operands. -/
def gosprintf (format : String) (args : List GoVal) : String :=
  let st := format.toList.foldl fmtStep { out := "", args := args, pending := false }
  let out := if st.pending then st.out ++ "%!(NOVERB)" else st.out
  out ++ extraNote st.args

/-- `strings.LastIndex(file, "/")` followed by `file[n+1:]`: the suffix of
`file` after its last slash (the whole string when it has no slash). -/
def stripDir (file : String) : String :=
  String.mk ((file.toList.reverse.takeWhile (fun c => c ≠ '/')).reverse)

/-- `decorate` from the source: prefix a log line with the short file name
and line of the caller three frames up; when `runtime.Caller` fails
(`caller = none`), substitute file `"???"` and line 1. -/
def decorate (caller : Option (String × Nat)) (s : String) : String :=
  match caller with
  | some (file, line) => stripDir file ++ ":" ++ toString line ++ ": " ++ s
  | none => "???" ++ ":" ++ toString 1 ++ ": " ++ s

/-- The failure recorder `R`: `fail` flag and accumulated `output` lines. -/
structure R where
  fail : Bool
  output : List String
deriving DecidableEq, Repr

/-- `R.FailNow`: set `fail`; the `runtime.Goexit` it then performs aborts
only the attempt goroutine and is modelled by `runAttempt` stopping. -/
def R.FailNow (r : R) : R :=
  { r with fail := true }

/-- `R.log`: append the decorated line to `output`. -/
def R.log (r : R) (caller : Option (String × Nat)) (s : String) : R :=
  { r with output := r.output ++ [decorate caller s] }

/-- `R.Fatal`: log `fmt.Sprint(args...)`, then `FailNow`. -/
def R.Fatal (r : R) (caller : Option (String × Nat)) (args : List GoFlat) : R :=
  (r.log caller (gosprint args)).FailNow

/-- `R.Fatalf`: log `fmt.Sprintf(format, args)` — note the source passes the
whole `args` slice as one single operand, not `args...` — then `FailNow`. -/
def R.Fatalf (r : R) (caller : Option (String × Nat)) (format : String)
    (args : List GoFlat) : R :=
  (r.log caller (gosprintf format [GoVal.vslice args])).FailNow

/-- `R.Error`: log `fmt.Sprint(args...)` and set `fail`. -/
def R.Error (r : R) (caller : Option (String × Nat)) (args : List GoFlat) : R :=
  { (r.log caller (gosprint args)) with fail := true }

/-- The orchestrator's reset `rr.fail = false` performed after a failed
attempt before the next loop iteration. -/
def R.resetFail (r : R) : R :=
  { r with fail := false }

/-- Lookup in the embedded Go map (`m[s]`): first matching key. -/
def mapGet (m : List (String × Nat)) (k : String) : Option Nat :=
  match m with
  | [] => none
  | (k₁, v) :: rest => if k₁ = k then some v else mapGet rest k

/-- Update/insert in the embedded Go map (`m[s] = v`). -/
def mapPut (m : List (String × Nat)) (k : String) (v : Nat) : List (String × Nat) :=
  match m with
  | [] => [(k, v)]
  | (k₁, v₁) :: rest => if k₁ = k then (k, v) :: rest else (k₁, v₁) :: mapPut rest k v

/-- Deletion from the embedded Go map (`delete(m, s)`). -/
def mapDel (m : List (String × Nat)) (k : String) : List (String × Nat) :=
  match m with
  | [] => []
  | (k₁, v₁) :: rest => if k₁ = k then mapDel rest k else (k₁, v₁) :: mapDel rest k

/-- The occurrence-count map `m` built by `dedup`'s first loop
(`for _, s := range a, m[s] = m[s] + 1`; absent keys read as 0). -/
def buildCounts (a : List String) : List (String × Nat) :=
  a.foldl (fun m s => mapPut m s ((mapGet m s).getD 0 + 1)) []

/-- `dedup`'s second loop: emit `s ++ "\n"` for each line still present in
the map, deleting it so later duplicates are skipped. -/
def dedupGo : List String → List (String × Nat) → String
  | [], _ => ""
  | s :: rest, m =>
    if (mapGet m s).isSome then s ++ "\n" ++ dedupGo rest (mapDel m s)
    else dedupGo rest m

/-- `dedup` from the source: empty input yields `""`; otherwise build the
count map over `a` and emit each line on its first occurrence. -/
def dedup (a : List String) : String :=
  if a.length = 0 then "" else dedupGo a (buildCounts a)

/-- Specification-side companion of `dedup`: the distinct lines of `a` in
first-occurrence order, skipping those already `seen`. -/
def firstOccur : List String → List String → List String
  | [], _ => []
  | s :: rest, seen =>
    if s ∈ seen then firstOccur rest seen else s :: firstOccur rest (s :: seen)

/-- Specification-side companion of `dedup`: concatenation of the given
lines, each terminated by a newline. -/
def concatLines : List String → String
  | [] => ""
  | s :: rest => s ++ "\n" ++ concatLines rest

/-- Observable result of one `NextOr` call: the returned bool (`ok`), the
successor policy state, the sleeps performed (durations, in call order),
and whether the `fail` callback was invoked before returning. -/
structure NextOrResult (σ : Type) where
  ok : Bool
  state : σ
  sleeps : List Nat
  calledFail : Bool
deriving DecidableEq, Repr

/-- `Counter`: repeats an operation `Count` times, waiting `Wait` between
subsequent operations; `count` is the private attempts-taken counter. -/
structure Counter where
  Count : Nat
  Wait : Nat
  count : Nat
deriving DecidableEq, Repr

/-- `Counter.NextOr`: when `count == Count`, call `fail` and return false;
otherwise sleep `Wait` (except before the first attempt), bump `count`,
and return true. -/
def Counter.NextOr (r : Counter) : NextOrResult Counter :=
  if r.count = r.Count then
    { ok := false, state := r, sleeps := [], calledFail := true }
  else
    { ok := true, state := { r with count := r.count + 1 },
      sleeps := if r.count > 0 then [r.Wait] else [], calledFail := false }

/-- `Timer`: repeats an operation for `Timeout`, waiting `Wait` between
subsequent operations; `stop` is the deadline, `none` until the first call
(the zero `time.Time` of the source). -/
structure Timer where
  Timeout : Nat
  Wait : Nat
  stop : Option Nat
deriving DecidableEq, Repr

/-- `Timer.NextOr` at current time `now`: on the first call set
`stop = now + Timeout` and return true immediately; afterwards, if
`now > stop`, call `fail` and return false, else sleep `Wait` and return
true. -/
def Timer.NextOr (r : Timer) (now : Nat) : NextOrResult Timer :=
  match r.stop with
  | none =>
    { ok := true, state := { r with stop := some (now + r.Timeout) },
      sleeps := [], calledFail := false }
  | some stop =>
    if now > stop then { ok := false, state := r, sleeps := [], calledFail := true }
    else { ok := true, state := r, sleeps := [r.Wait], calledFail := false }

/-- The `Retryer` interface: the two implementations of the source. -/
inductive Retryer where
  | counter (c : Counter)
  | timer (t : Timer)
deriving DecidableEq, Repr

/-- Dynamic dispatch of `NextOr`; `now` is the timestamp `time.Now()` would
deliver during this call (a `Counter` never reads it). -/
def Retryer.NextOr : Retryer → Nat → NextOrResult Retryer
  | .counter c, _ =>
    let res := c.NextOr
    { ok := res.ok, state := .counter res.state, sleeps := res.sleeps,
      calledFail := res.calledFail }
  | .timer t, now =>
    let res := t.NextOr now
    { ok := res.ok, state := .timer res.state, sleeps := res.sleeps,
      calledFail := res.calledFail }

/-- `OneSec`: repeat for one second, waiting 25ms in between
(durations in nanoseconds: `time.Second` and `25 * time.Millisecond`). -/
def OneSec : Timer :=
  { Timeout := 1000000000, Wait := 25 * 1000000, stop := none }

/-- `ThreeTimes`: repeat three times, waiting 25ms in between. -/
def ThreeTimes : Counter :=
  { Count := 3, Wait := 25 * 1000000, count := 0 }

/-- One call an attempt body makes on the recorder, or opaque non-recorder
work (`noop`).  Every exported recorder method is represented; `caller` is
the `runtime.Caller` information of the call site. -/
inductive Step where
  | noop
  | error (caller : Option (String × Nat)) (args : List GoFlat)
  | fatal (caller : Option (String × Nat)) (args : List GoFlat)
  | fatalf (caller : Option (String × Nat)) (format : String) (args : List GoFlat)
  | failNow
deriving DecidableEq, Repr

/-- An attempt body: the sequence of recorder calls it would make if it ran
to completion. -/
abbrev Attempt := List Step

/-- Execute one attempt on its own goroutine: interpret its recorder calls
in order; `Fatal` / `Fatalf` / `FailNow` abort the goroutine
(`runtime.Goexit`), so interpretation stops there.  The returned state is
what the orchestrator observes after `wg.Wait()`. -/
def runAttempt (rr : R) : Attempt → R
  | [] => rr
  | .noop :: rest => runAttempt rr rest
  | .error c args :: rest => runAttempt (rr.Error c args) rest
  | .fatal c args :: _ => rr.Fatal c args
  | .fatalf c format args :: _ => rr.Fatalf c format args
  | .failNow :: _ => rr.FailNow

/-- Whether running an attempt from an unset `fail` flag leaves it set,
i.e. whether the body reaches any failure-recording call. -/
def attemptFails : Attempt → Bool
  | [] => false
  | .noop :: rest => attemptFails rest
  | .error _ _ :: _ => true
  | .fatal _ _ :: _ => true
  | .fatalf _ _ _ :: _ => true
  | .failNow :: _ => true

/-- Observable outcome of one `run` call: number of attempt executions,
all sleeps in order, how often the `fail` closure ran, the blocks passed
to `t.Log`, whether `t.FailNow` was signalled, and the final recorder. -/
structure RunResult where
  attempts : Nat
  sleeps : List Nat
  exhaustCalls : Nat
  tLogs : List String
  tFailNow : Bool
  rr : R
deriving DecidableEq, Repr

/-- The loop of `run`: ask the policy (`NextOr`), on true run the attempt
on a fresh goroutine and join, then either reset the flag and continue or
break; on false the `fail` closure has already deduplicated the output,
logged it when non-empty, and called `t.FailNow`.  `clock` gives the time
observed by the i-th `NextOr` call; `fuel` bounds the iterations of this
embedding (the source loop is unbounded); `k` counts attempts so far. -/
def runLoop (clock : Nat → Nat) (f : Nat → Attempt) :
    Nat → Retryer → Nat → Nat → R → List Nat → RunResult
  | 0, _, _, k, rr, sleeps =>
    { attempts := k, sleeps := sleeps, exhaustCalls := 0, tLogs := [],
      tFailNow := false, rr := rr }
  | fuel + 1, pol, i, k, rr, sleeps =>
    let res := pol.NextOr (clock i)
    if res.ok then
      let rr1 := runAttempt rr (f k)
      if rr1.fail then
        runLoop clock f fuel res.state (i + 1) (k + 1) rr1.resetFail
          (sleeps ++ res.sleeps)
      else
        { attempts := k + 1, sleeps := sleeps ++ res.sleeps, exhaustCalls := 0,
          tLogs := [], tFailNow := false, rr := rr1 }
    else
      let out := dedup rr.output
      { attempts := k, sleeps := sleeps ++ res.sleeps, exhaustCalls := 1,
        tLogs := if out = "" then [] else [out], tFailNow := true, rr := rr }

/-- `run`: fresh zero recorder, then the loop. -/
def run (fuel : Nat) (pol : Retryer) (clock : Nat → Nat) (f : Nat → Attempt) :
    RunResult :=
  runLoop clock f fuel pol 0 0 { fail := false, output := [] } []

/-- `Run`: `run` with the `OneSec` timer. -/
def Run (fuel : Nat) (clock : Nat → Nat) (f : Nat → Attempt) : RunResult :=
  run fuel (Retryer.timer OneSec) clock f

/-- `RunWith`: `run` with the given retryer. -/
def RunWith (pol : Retryer) (fuel : Nat) (clock : Nat → Nat)
    (f : Nat → Attempt) : RunResult :=
  run fuel pol clock f

/-- The policy state reached after `l` further `NextOr` calls starting from
`pol`, the first of which observes `clock i`. -/
def polAfter (pol : Retryer) (clock : Nat → Nat) (i : Nat) : Nat → Retryer
  | 0 => pol
  | l + 1 => ((polAfter pol clock i l).NextOr (clock (i + l))).state

theorem mapGet_mapPut (m : List (String × Nat)) (k : String) (v : Nat)
    (k₂ : String) :
    mapGet (mapPut m k v) k₂ = if k = k₂ then some v else mapGet m k₂ := by
  induction m with
  | nil => simp [mapPut, mapGet]
  | cons hd tl ih =>
    obtain ⟨k₁, v₁⟩ := hd
    by_cases h : k₁ = k
    · subst h
      by_cases h₂ : k₁ = k₂ <;> simp [mapPut, mapGet, h₂]
    · by_cases h₂ : k₁ = k₂
      · subst h₂
        have hkk : ¬ k = k₁ := fun h' => h h'.symm
        simp [mapPut, mapGet, h, hkk]
      · simp [mapPut, mapGet, h, h₂, ih]

theorem mapGet_mapDel (m : List (String × Nat)) (k : String) (k₂ : String) :
    mapGet (mapDel m k) k₂ = if k = k₂ then none else mapGet m k₂ := by
  induction m with
  | nil => simp [mapDel, mapGet]
  | cons hd tl ih =>
    obtain ⟨k₁, v₁⟩ := hd
    by_cases h : k₁ = k
    · subst h
      rw [show mapDel ((k₁, v₁) :: tl) k₁ = mapDel tl k₁ by simp [mapDel], ih]
      by_cases h₂ : k₁ = k₂ <;> simp [h₂, mapGet]
    · rw [show mapDel ((k₁, v₁) :: tl) k = (k₁, v₁) :: mapDel tl k by simp [mapDel, h]]
      by_cases h₂ : k₁ = k₂
      · subst h₂
        have hkk : ¬ k = k₁ := fun h' => h h'.symm
        simp [mapGet, hkk]
      · simp [mapGet, h₂, ih]

theorem mapGet_foldl_bump (a : List String) (m : List (String × Nat))
    (s : String) :
    (mapGet (a.foldl (fun m s => mapPut m s ((mapGet m s).getD 0 + 1)) m) s).isSome
      = true ↔ s ∈ a ∨ (mapGet m s).isSome = true := by
  induction a generalizing m with
  | nil => simp
  | cons hd tl ih =>
    rw [List.foldl_cons, ih, mapGet_mapPut]
    by_cases h : hd = s
    · simp [h]
    · rw [if_neg h]
      simp only [List.mem_cons]
      constructor
      · intro hc
        rcases hc with hc | hc
        · exact Or.inl (Or.inr hc)
        · exact Or.inr hc
      · intro hc
        rcases hc with (hc | hc) | hc
        · exact absurd hc.symm h
        · exact Or.inl hc
        · exact Or.inr hc

theorem mapGet_buildCounts (a : List String) (s : String) :
    (mapGet (buildCounts a) s).isSome = true ↔ s ∈ a := by
  rw [buildCounts, mapGet_foldl_bump]
  simp [mapGet]

theorem dedupGo_eq_firstOccur (a : List String) (m : List (String × Nat))
    (seen : List String)
    (hinv : ∀ s ∈ a, ((mapGet m s).isSome = true ↔ s ∉ seen)) :
    dedupGo a m = concatLines (firstOccur a seen) := by
  induction a generalizing m seen with
  | nil => simp [dedupGo, firstOccur, concatLines]
  | cons hd tl ih =>
    by_cases h : (mapGet m hd).isSome = true
    · have hns : hd ∉ seen := (hinv hd (by simp)).mp h
      rw [dedupGo, if_pos h, firstOccur, if_neg hns, concatLines]
      rw [ih (mapDel m hd) (hd :: seen)]
      intro s hs
      rw [mapGet_mapDel]
      by_cases he : hd = s
      · subst he
        simp
      · rw [if_neg he, hinv s (by simp [hs])]
        simp only [List.mem_cons, not_or]
        constructor
        · intro hn
          exact ⟨fun h' => he h'.symm, hn⟩
        · intro hn
          exact hn.2
    · have hsn : hd ∈ seen := by
        by_contra hns
        exact h ((hinv hd (by simp)).mpr hns)
      rw [dedupGo, if_neg h, firstOccur, if_pos hsn]
      exact ih m seen (fun s hmem => hinv s (by simp [hmem]))

theorem dedup_eq_firstOccur (a : List String) :
    dedup a = concatLines (firstOccur a []) := by
  rcases a with _ | ⟨hd, tl⟩
  · simp [dedup, firstOccur, concatLines]
  · rw [dedup, if_neg (by simp)]
    apply dedupGo_eq_firstOccur
    intro s hs
    simp [mapGet_buildCounts, hs]

/-- C2: `dedup` returns the concatenation of each distinct line exactly
once, in the order of each line's first occurrence, each terminated by a
newline; `dedup []` is empty and `dedup ["a","b","a","c","b"]` is
`"a\nb\nc\n"`. -/
theorem dedup_distinct_first_occurrence :
    (∀ a : List String, dedup a = concatLines (firstOccur a [])) ∧
    dedup [] = "" ∧
    dedup ["a", "b", "a", "c", "b"] = "a\nb\nc\n" :=
  ⟨dedup_eq_firstOccur, rfl, by decide⟩

theorem runAttempt_fail (rr : R) (a : Attempt) :
    (runAttempt rr a).fail = (rr.fail || attemptFails a) := by
  induction a generalizing rr with
  | nil => simp [runAttempt, attemptFails]
  | cons hd tl ih =>
    cases hd with
    | noop => simp [runAttempt, attemptFails, ih]
    | error c args => simp [runAttempt, attemptFails, ih, R.Error, R.log]
    | fatal c args => simp [runAttempt, attemptFails, R.Fatal, R.FailNow, R.log]
    | fatalf c format args =>
      simp [runAttempt, attemptFails, R.Fatalf, R.FailNow, R.log]
    | failNow => simp [runAttempt, attemptFails, R.FailNow]

theorem runAttempt_output (rr : R) (a : Attempt) :
    ∃ t, (runAttempt rr a).output = rr.output ++ t := by
  induction a generalizing rr with
  | nil => exact ⟨[], by simp [runAttempt]⟩
  | cons hd tl ih =>
    cases hd with
    | noop => simpa [runAttempt] using ih rr
    | error c args =>
      obtain ⟨t, ht⟩ := ih (rr.Error c args)
      refine ⟨decorate c (gosprint args) :: t, ?_⟩
      rw [runAttempt, ht]
      simp [R.Error, R.log]
    | fatal c args =>
      exact ⟨[decorate c (gosprint args)], by
        simp [runAttempt, R.Fatal, R.FailNow, R.log]⟩
    | fatalf c format args =>
      exact ⟨[decorate c (gosprintf format [GoVal.vslice args])], by
        simp [runAttempt, R.Fatalf, R.FailNow, R.log]⟩
    | failNow => exact ⟨[], by simp [runAttempt, R.FailNow]⟩

theorem runLoop_rr_output (clock : Nat → Nat) (f : Nat → Attempt) :
    ∀ fuel pol i k rr s,
      ∃ t, (runLoop clock f fuel pol i k rr s).rr.output = rr.output ++ t := by
  intro fuel
  induction fuel with
  | zero =>
    intro pol i k rr s
    exact ⟨[], by simp [runLoop]⟩
  | succ fuel ih =>
    intro pol i k rr s
    simp only [runLoop]
    split
    · split
      · obtain ⟨t₁, ht₁⟩ := runAttempt_output rr (f k)
        obtain ⟨t₂, ht₂⟩ :=
          ih (pol.NextOr (clock i)).state (i + 1) (k + 1)
            (runAttempt rr (f k)).resetFail (s ++ (pol.NextOr (clock i)).sleeps)
        refine ⟨t₁ ++ t₂, ?_⟩
        rw [ht₂]
        simp [R.resetFail, ht₁]
      · exact runAttempt_output rr (f k)
    · exact ⟨[], by simp⟩

theorem runLoop_congr (clock : Nat → Nat) (f g : Nat → Attempt)
    (h : ∀ k rr, runAttempt rr (f k) = runAttempt rr (g k)) :
    ∀ fuel pol i k rr s,
      runLoop clock f fuel pol i k rr s = runLoop clock g fuel pol i k rr s := by
  intro fuel
  induction fuel with
  | zero =>
    intro pol i k rr s
    rfl
  | succ fuel ih =>
    intro pol i k rr s
    simp only [runLoop, h k rr]
    split
    · split
      · exact ih _ _ _ _ _
      · rfl
    · rfl

/-- C8: every recorder operation and the orchestrator's post-attempt flag
reset leave all previously recorded lines in place as a prefix — each
operation's `output` extends the old one on the right, attempts only
append, and the whole loop only appends to the recorder the final report
reads. -/
theorem recorder_log_append_only :
    (∀ (r : R) c args, ∃ t, (R.Error r c args).output = r.output ++ t) ∧
    (∀ (r : R) c args, ∃ t, (R.Fatal r c args).output = r.output ++ t) ∧
    (∀ (r : R) c format args,
      ∃ t, (R.Fatalf r c format args).output = r.output ++ t) ∧
    (∀ (r : R) c s, ∃ t, (R.log r c s).output = r.output ++ t) ∧
    (∀ r : R, (R.FailNow r).output = r.output ∧ (R.resetFail r).output = r.output) ∧
    (∀ (rr : R) (a : Attempt), ∃ t, (runAttempt rr a).output = rr.output ++ t) ∧
    (∀ clock f fuel pol i k rr s,
      ∃ t, (runLoop clock f fuel pol i k rr s).rr.output = rr.output ++ t) := by
  refine ⟨?_, ?_, ?_, ?_, ?_, runAttempt_output, ?_⟩
  · intro r c args
    exact ⟨[decorate c (gosprint args)], rfl⟩
  · intro r c args
    exact ⟨[decorate c (gosprint args)], rfl⟩
  · intro r c format args
    exact ⟨[decorate c (gosprintf format [GoVal.vslice args])], rfl⟩
  · intro r c s
    exact ⟨[decorate c s], rfl⟩
  · intro r
    exact ⟨rfl, rfl⟩
  · intro clock f fuel pol i k rr s
    exact runLoop_rr_output clock f fuel pol i k rr s

theorem runAttempt_fatal_eq_error (rr : R) (c : Option (String × Nat))
    (args : List GoFlat) (rest : Attempt) :
    runAttempt rr (Step.fatal c args :: rest) = runAttempt rr [Step.error c args] :=
  rfl

/-- C9: an abrupt abort via `Fatal`/`FailNow` terminates only the attempt's
worker: after the join the orchestrator sees `fail = true` exactly as for a
plain `Error` call (here the post-join recorder states are even equal), the
whole run is unchanged by replacing the abort with the soft failure, and a
run whose first attempt aborts proceeds to the next attempt and finishes
normally. -/
theorem fatal_aborts_only_attempt :
    (∀ (rr : R) c args rest,
        runAttempt rr (Step.fatal c args :: rest) = runAttempt rr [Step.error c args] ∧
        (runAttempt rr (Step.fatal c args :: rest)).fail = true) ∧
    (∀ fuel pol clock c args (f : Nat → Attempt),
        run fuel pol clock (fun i => if i = 0 then [Step.fatal c args] else f i)
          = run fuel pol clock (fun i => if i = 0 then [Step.error c args] else f i)) ∧
    (run 5 (Retryer.counter { Count := 3, Wait := 0, count := 0 }) (fun _ => 0)
        (fun i => if i = 0 then [Step.fatal none [GoFlat.fstr "x"]] else [])).attempts
      = 2 ∧
    (run 5 (Retryer.counter { Count := 3, Wait := 0, count := 0 }) (fun _ => 0)
        (fun i => if i = 0 then [Step.fatal none [GoFlat.fstr "x"]] else [])).tFailNow
      = false := by
  refine ⟨?_, ?_, by decide, by decide⟩
  · intro rr c args rest
    exact ⟨runAttempt_fatal_eq_error rr c args rest, by
      simp [runAttempt, R.Fatal, R.FailNow]⟩
  · intro fuel pol clock c args f
    apply runLoop_congr
    intro k rr
    cases k with
    | zero => simpa using runAttempt_fatal_eq_error rr c args []
    | succ k => rfl

/-- C10: `Fatalf` formats with the whole `args` slice passed as one single
operand (`fmt.Sprintf(format, args)`), not spread into the verbs; with
format `"%d"` and argument `1` the recorded message is `"[1]"`, not the
`"1"` that spreading would give. -/
theorem fatalf_formats_args_as_single_operand :
    (∀ (r : R) c format args,
        R.Fatalf r c format args =
          { fail := true,
            output := r.output ++
              [decorate c (gosprintf format [GoVal.vslice args])] }) ∧
    gosprintf "%d" [GoVal.vslice [GoFlat.fint 1]] = "[1]" ∧
    gosprintf "%d" (([GoFlat.fint 1]).map GoVal.flat) = "1" ∧
    R.Fatalf { fail := false, output := [] } none "%d" [GoFlat.fint 1] =
      { fail := true, output := ["???:1: [1]"] } := by
  exact ⟨fun r c format args => rfl, by decide, by decide, by decide⟩

/-- The spec's `DeadlinePolicy.default()`: one second total budget and a
25 millisecond poll delay, stated in nanoseconds, deadline not yet set. -/
def specDeadlinePolicyDefault : Timer :=
  { Timeout := 1000000000, Wait := 25000000, stop := none }

/-- C6: `Run` behaves identically to `RunWith` with the default deadline
policy, and the source default `OneSec` is exactly the spec's default
deadline policy (1 s budget, 25 ms poll delay). -/
theorem Run_is_RunWith_default_deadline :
    (∀ fuel clock f, Run fuel clock f = RunWith (Retryer.timer OneSec) fuel clock f) ∧
    OneSec = specDeadlinePolicyDefault :=
  ⟨fun _ _ _ => rfl, by decide⟩

theorem runLoop_exhaust_report (clock : Nat → Nat) (f : Nat → Attempt) :
    ∀ fuel pol i k rr s,
      (runLoop clock f fuel pol i k rr s).exhaustCalls = 1 →
      (runLoop clock f fuel pol i k rr s).tFailNow = true ∧
      (runLoop clock f fuel pol i k rr s).tLogs =
        (if dedup (runLoop clock f fuel pol i k rr s).rr.output = "" then []
         else [dedup (runLoop clock f fuel pol i k rr s).rr.output]) ∧
      (runLoop clock f fuel pol i k rr s).tLogs.length ≤ 1 := by
  intro fuel
  induction fuel with
  | zero =>
    intro pol i k rr s h
    simp [runLoop] at h
  | succ fuel ih =>
    intro pol i k rr s
    simp only [runLoop]
    split
    · split
      · exact ih _ _ _ _ _
      · intro h
        simp at h
    · intro h
      refine ⟨rfl, ?_, ?_⟩
      · split <;> rfl
      · split <;> simp

/-- C7: whenever the policy is exhausted during a run, the `fail` closure
deduplicates all log lines accumulated across every attempt, passes the
block to `t.Log` exactly once and only when it is non-empty, and signals
`t.FailNow`. -/
theorem run_exhaustion_emits_dedup_once (fuel : Nat) (pol : Retryer)
    (clock : Nat → Nat) (f : Nat → Attempt)
    (h : (run fuel pol clock f).exhaustCalls = 1) :
    (run fuel pol clock f).tFailNow = true ∧
    (run fuel pol clock f).tLogs =
      (if dedup (run fuel pol clock f).rr.output = "" then []
       else [dedup (run fuel pol clock f).rr.output]) ∧
    (run fuel pol clock f).tLogs.length ≤ 1 :=
  runLoop_exhaust_report clock f fuel pol 0 0 { fail := false, output := [] } [] h

/-- Witness for C7: a counter run that exhausts after one failing attempt
emits its single deduplicated line and fails the test. -/
theorem run_exhaustion_emits_dedup_once_witness :
    (run 2 (Retryer.counter { Count := 1, Wait := 0, count := 0 }) (fun _ => 0)
        (fun _ => [Step.error none [GoFlat.fstr "x"]])).exhaustCalls = 1 ∧
    ((run 2 (Retryer.counter { Count := 1, Wait := 0, count := 0 }) (fun _ => 0)
        (fun _ => [Step.error none [GoFlat.fstr "x"]])).tFailNow = true ∧
     (run 2 (Retryer.counter { Count := 1, Wait := 0, count := 0 }) (fun _ => 0)
        (fun _ => [Step.error none [GoFlat.fstr "x"]])).tLogs =
       (if dedup (run 2 (Retryer.counter { Count := 1, Wait := 0, count := 0 })
            (fun _ => 0) (fun _ => [Step.error none [GoFlat.fstr "x"]])).rr.output = ""
        then []
        else [dedup (run 2 (Retryer.counter { Count := 1, Wait := 0, count := 0 })
            (fun _ => 0) (fun _ => [Step.error none [GoFlat.fstr "x"]])).rr.output]) ∧
     (run 2 (Retryer.counter { Count := 1, Wait := 0, count := 0 }) (fun _ => 0)
        (fun _ => [Step.error none [GoFlat.fstr "x"]])).tLogs.length ≤ 1) :=
  ⟨by decide,
   run_exhaustion_emits_dedup_once 2
     (Retryer.counter { Count := 1, Wait := 0, count := 0 }) (fun _ => 0)
     (fun _ => [Step.error none [GoFlat.fstr "x"]]) (by decide)⟩
theorem runLoop_counter_allFail (clock : Nat → Nat) (f : Nat → Attempt)
    (n d : Nat) (hfail : ∀ j, attemptFails (f j) = true) :
    ∀ (m c fuel i k : Nat) (rr : R) (s : List Nat), c + m = n → fuel ≥ m + 1 →
      (runLoop clock f fuel (Retryer.counter { Count := n, Wait := d, count := c })
          i k rr s).attempts = k + m ∧
      (runLoop clock f fuel (Retryer.counter { Count := n, Wait := d, count := c })
          i k rr s).exhaustCalls = 1 ∧
      (runLoop clock f fuel (Retryer.counter { Count := n, Wait := d, count := c })
          i k rr s).tFailNow = true ∧
      (runLoop clock f fuel (Retryer.counter { Count := n, Wait := d, count := c })
          i k rr s).sleeps = s ++ List.replicate (if c = 0 then m - 1 else m) d := by
  intro m
  induction m with
  | zero =>
    intro c fuel i k rr s hc hfuel
    obtain ⟨fuel', rfl⟩ : ∃ fuel', fuel = fuel' + 1 := ⟨fuel - 1, by omega⟩
    have hcn : c = n := by omega
    subst hcn
    simp [runLoop, Retryer.NextOr, Counter.NextOr]
  | succ m ih =>
    intro c fuel i k rr s hc hfuel
    obtain ⟨fuel', rfl⟩ : ∃ fuel', fuel = fuel' + 1 := ⟨fuel - 1, by omega⟩
    have hcn : ¬ c = n := by omega
    have hf : (runAttempt rr (f k)).fail = true := by
      rw [runAttempt_fail, hfail k]
      simp
    simp only [runLoop, Retryer.NextOr, Counter.NextOr, if_neg hcn, if_pos rfl, hf,
      if_true]
    obtain ⟨h1, h2, h3, h4⟩ :=
      ih (c + 1) fuel' (i + 1) (k + 1) (runAttempt rr (f k)).resetFail
        (s ++ if c > 0 then [d] else []) (by omega) (by omega)
    refine ⟨?_, h2, h3, ?_⟩
    · rw [h1]
      omega
    · rw [h4]
      by_cases hc0 : c = 0
      · subst hc0
        simp
      · have hcpos : c > 0 := by omega
        simp [hc0, hcpos, List.replicate_succ, List.append_assoc]

/-- C3: with `CountPolicy(n, d)`, if every attempt records a failure, the
attempt callback runs exactly `n` times, the exhaustion closure fires
exactly once, and the delay `d` is slept exactly `n - 1` times (never
before the first attempt). -/
theorem count_policy_runs_n_attempts (n d fuel : Nat) (clock : Nat → Nat)
    (f : Nat → Attempt) (hfail : ∀ j, attemptFails (f j) = true)
    (hfuel : fuel ≥ n + 1) :
    (RunWith (Retryer.counter { Count := n, Wait := d, count := 0 }) fuel clock
        f).attempts = n ∧
    (RunWith (Retryer.counter { Count := n, Wait := d, count := 0 }) fuel clock
        f).exhaustCalls = 1 ∧
    (RunWith (Retryer.counter { Count := n, Wait := d, count := 0 }) fuel clock
        f).sleeps = List.replicate (n - 1) d := by
  obtain ⟨h1, h2, h3, h4⟩ :=
    runLoop_counter_allFail clock f n d hfail n 0 fuel 0 0
      { fail := false, output := [] } [] (by omega) hfuel
  refine ⟨by simpa using h1, h2, by simpa using h4⟩

/-- Witness for C3: `CountPolicy(2, 7)` with an always-failing attempt runs
it twice, exhausts once, and sleeps 7 exactly once. -/
theorem count_policy_runs_n_attempts_witness :
    (RunWith (Retryer.counter { Count := 2, Wait := 7, count := 0 }) 3 (fun _ => 0)
        (fun _ => [Step.error none [GoFlat.fstr "x"]])).attempts = 2 ∧
    (RunWith (Retryer.counter { Count := 2, Wait := 7, count := 0 }) 3 (fun _ => 0)
        (fun _ => [Step.error none [GoFlat.fstr "x"]])).exhaustCalls = 1 ∧
    (RunWith (Retryer.counter { Count := 2, Wait := 7, count := 0 }) 3 (fun _ => 0)
        (fun _ => [Step.error none [GoFlat.fstr "x"]])).sleeps =
      List.replicate (2 - 1) 7 :=
  count_policy_runs_n_attempts 2 7 3 (fun _ => 0)
    (fun _ => [Step.error none [GoFlat.fstr "x"]]) (fun _ => rfl) (by decide)

/-- C4: `Timer.NextOr` — the first call sets the deadline to
`now + Timeout` and returns true with no sleep; a later call returns false
and calls `fail` exactly when `now` is strictly after the deadline, and
otherwise sleeps `Wait` and returns true. -/
theorem timer_nextOr_behavior :
    (∀ (t : Timer) (now : Nat), t.stop = none →
        t.NextOr now =
          { ok := true, state := { t with stop := some (now + t.Timeout) },
            sleeps := [], calledFail := false }) ∧
    (∀ (t : Timer) (dl now : Nat), t.stop = some dl → now > dl →
        t.NextOr now =
          { ok := false, state := t, sleeps := [], calledFail := true }) ∧
    (∀ (t : Timer) (dl now : Nat), t.stop = some dl → ¬ now > dl →
        t.NextOr now =
          { ok := true, state := t, sleeps := [t.Wait], calledFail := false }) := by
  refine ⟨?_, ?_, ?_⟩
  · intro t now h
    simp [Timer.NextOr, h]
  · intro t dl now h hgt
    simp [Timer.NextOr, h, hgt]
  · intro t dl now h hgt
    simp [Timer.NextOr, h, hgt]

/-- Witness for C4: the three branches at concrete timers and times. -/
theorem timer_nextOr_behavior_witness :
    Timer.NextOr { Timeout := 10, Wait := 3, stop := none } 5 =
      { ok := true, state := { Timeout := 10, Wait := 3, stop := some 15 },
        sleeps := [], calledFail := false } ∧
    Timer.NextOr { Timeout := 10, Wait := 3, stop := some 4 } 5 =
      { ok := false, state := { Timeout := 10, Wait := 3, stop := some 4 },
        sleeps := [], calledFail := true } ∧
    Timer.NextOr { Timeout := 10, Wait := 3, stop := some 6 } 5 =
      { ok := true, state := { Timeout := 10, Wait := 3, stop := some 6 },
        sleeps := [3], calledFail := false } :=
  ⟨timer_nextOr_behavior.1 { Timeout := 10, Wait := 3, stop := none } 5 rfl,
   timer_nextOr_behavior.2.1 { Timeout := 10, Wait := 3, stop := some 4 } 4 5 rfl
     (by decide),
   timer_nextOr_behavior.2.2 { Timeout := 10, Wait := 3, stop := some 6 } 6 5 rfl
     (by decide)⟩

/-- The sequence of `(ok, calledFail)` observations from repeated `NextOr`
calls on one policy instance; the sequence stops at the first false return,
because the `fail` callback handed to `NextOr` never returns. -/
def policyTrace (clock : Nat → Nat) : Nat → Retryer → Nat → List (Bool × Bool)
  | 0, _, _ => []
  | fuel + 1, pol, i =>
    let res := pol.NextOr (clock i)
    if res.ok then (res.ok, res.calledFail) :: policyTrace clock fuel res.state (i + 1)
    else [(res.ok, res.calledFail)]

/-- Number of false returns in a `NextOr` call trace. -/
def falseCount : List (Bool × Bool) → Nat
  | [] => 0
  | e :: rest => (if e.fst then 0 else 1) + falseCount rest

theorem falseCount_append (a b : List (Bool × Bool)) :
    falseCount (a ++ b) = falseCount a + falseCount b := by
  induction a with
  | nil => simp [falseCount]
  | cons hd tl ih => simp [falseCount, ih]; omega

theorem falseCount_replicate_true (m : Nat) :
    falseCount (List.replicate m (true, false)) = 0 := by
  induction m with
  | zero => rfl
  | succ m ih => simp [List.replicate_succ, falseCount, ih]

theorem nextOr_calledFail_iff_not_ok (pol : Retryer) (now : Nat) :
    (pol.NextOr now).calledFail = !(pol.NextOr now).ok := by
  cases pol with
  | counter c =>
    simp only [Retryer.NextOr, Counter.NextOr]
    split <;> rfl
  | timer t =>
    rcases ht : t.stop with _ | dl
    · simp [Retryer.NextOr, Timer.NextOr, ht]
    · simp only [Retryer.NextOr, Timer.NextOr, ht]
      split <;> rfl

theorem policyTrace_shape (clock : Nat → Nat) :
    ∀ fuel pol i,
      (∃ m, policyTrace clock fuel pol i = List.replicate m (true, false)) ∨
      (∃ m, policyTrace clock fuel pol i =
        List.replicate m (true, false) ++ [(false, true)]) := by
  intro fuel
  induction fuel with
  | zero =>
    intro pol i
    exact Or.inl ⟨0, rfl⟩
  | succ fuel ih =>
    intro pol i
    have hcf := nextOr_calledFail_iff_not_ok pol (clock i)
    by_cases hok : (pol.NextOr (clock i)).ok = true
    · have hcff : (pol.NextOr (clock i)).calledFail = false := by
        rw [hcf, hok]
        rfl
      rcases ih (pol.NextOr (clock i)).state (i + 1) with ⟨m, hm⟩ | ⟨m, hm⟩
      · exact Or.inl ⟨m + 1, by
          simp [policyTrace, hok, hcff, hm, List.replicate_succ]⟩
      · exact Or.inr ⟨m + 1, by
          simp [policyTrace, hok, hcff, hm, List.replicate_succ]⟩
    · have hokf : (pol.NextOr (clock i)).ok = false := by
        cases hb : (pol.NextOr (clock i)).ok
        · rfl
        · exact absurd hb hok
      have hcft : (pol.NextOr (clock i)).calledFail = true := by
        rw [hcf, hokf]
        rfl
      exact Or.inr ⟨0, by simp [policyTrace, hokf, hcft]⟩

theorem policyTrace_counter_exhausts (clock : Nat → Nat) (n d : Nat) :
    ∀ m c fuel i, c + m = n → fuel ≥ m + 1 →
      policyTrace clock fuel (Retryer.counter { Count := n, Wait := d, count := c }) i
        = List.replicate m (true, false) ++ [(false, true)] := by
  intro m
  induction m with
  | zero =>
    intro c fuel i hc hfuel
    obtain ⟨fuel', rfl⟩ : ∃ fuel', fuel = fuel' + 1 := ⟨fuel - 1, by omega⟩
    have hcn : c = n := by omega
    subst hcn
    simp [policyTrace, Retryer.NextOr, Counter.NextOr]
  | succ m ih =>
    intro c fuel i hc hfuel
    obtain ⟨fuel', rfl⟩ : ∃ fuel', fuel = fuel' + 1 := ⟨fuel - 1, by omega⟩
    have hcn : ¬ c = n := by omega
    simp [policyTrace, Retryer.NextOr, Counter.NextOr, hcn,
      ih (c + 1) fuel' (i + 1) (by omega) (by omega), List.replicate_succ]

theorem policyTrace_timer_deadline (clock : Nat → Nat) (T W : Nat) :
    ∀ fuel dl i, (∃ j, j < fuel ∧ clock (i + j) > dl) →
      falseCount
        (policyTrace clock fuel (Retryer.timer { Timeout := T, Wait := W, stop := some dl }) i)
        = 1 := by
  intro fuel
  induction fuel with
  | zero =>
    intro dl i h
    obtain ⟨j, hj, _⟩ := h
    omega
  | succ fuel ih =>
    intro dl i h
    by_cases hnow : clock i > dl
    · simp [policyTrace, Retryer.NextOr, Timer.NextOr, hnow, falseCount]
    · have h' : ∃ j, j < fuel ∧ clock ((i + 1) + j) > dl := by
        obtain ⟨j, hj, hgt⟩ := h
        cases j with
        | zero => exact absurd hgt hnow
        | succ j' =>
          refine ⟨j', by omega, ?_⟩
          have harith : (i + 1) + j' = i + (j' + 1) := by omega
          rw [harith]
          exact hgt
      simp [policyTrace, Retryer.NextOr, Timer.NextOr, hnow, falseCount,
        ih dl (i + 1) h']

/-- C5: across the lifetime of one policy instance, `NextOr` invokes the
exhaustion callback exactly on the calls that return false; a call trace
(which stops at the first false, since the callback never returns)
contains at most one false, always in last position; a fresh counter given
enough calls returns false exactly once, and so does a fresh timer once
the observed clock passes its deadline. -/
theorem nextOr_false_exactly_once_with_exhaustion :
    (∀ (pol : Retryer) (now : Nat),
        (pol.NextOr now).calledFail = !(pol.NextOr now).ok) ∧
    (∀ (clock : Nat → Nat) fuel pol i,
        falseCount (policyTrace clock fuel pol i) ≤ 1 ∧
        ∀ e ∈ (policyTrace clock fuel pol i).dropLast, e = (true, false)) ∧
    (∀ (n d fuel : Nat) (clock : Nat → Nat), fuel ≥ n + 1 →
        falseCount
          (policyTrace clock fuel
            (Retryer.counter { Count := n, Wait := d, count := 0 }) 0) = 1) ∧
    (∀ (T W fuel : Nat) (clock : Nat → Nat),
        (∃ j, 1 ≤ j ∧ j < fuel ∧ clock j > clock 0 + T) →
        falseCount
          (policyTrace clock fuel
            (Retryer.timer { Timeout := T, Wait := W, stop := none }) 0) = 1) := by
  refine ⟨nextOr_calledFail_iff_not_ok, ?_, ?_, ?_⟩
  · intro clock fuel pol i
    rcases policyTrace_shape clock fuel pol i with ⟨m, hm⟩ | ⟨m, hm⟩
    · constructor
      · rw [hm, falseCount_replicate_true]
        omega
      · intro e he
        rw [hm] at he
        exact List.eq_of_mem_replicate (List.dropLast_subset _ he)
    · constructor
      · rw [hm, falseCount_append, falseCount_replicate_true]
        simp [falseCount]
      · intro e he
        rw [hm, List.dropLast_concat] at he
        exact List.eq_of_mem_replicate he
  · intro n d fuel clock hfuel
    rw [policyTrace_counter_exhausts clock n d n 0 fuel 0 (by omega) hfuel,
      falseCount_append, falseCount_replicate_true]
    simp [falseCount]
  · intro T W fuel clock h
    obtain ⟨j, hj1, hjf, hgt⟩ := h
    obtain ⟨fuel', rfl⟩ : ∃ fuel', fuel = fuel' + 1 := ⟨fuel - 1, by omega⟩
    have hfirst :
        policyTrace clock (fuel' + 1)
            (Retryer.timer { Timeout := T, Wait := W, stop := none }) 0
          = (true, false) ::
            policyTrace clock fuel'
              (Retryer.timer { Timeout := T, Wait := W, stop := some (clock 0 + T) }) 1 := by
      simp [policyTrace, Retryer.NextOr, Timer.NextOr]
    have htail :
        falseCount
          (policyTrace clock fuel'
            (Retryer.timer { Timeout := T, Wait := W, stop := some (clock 0 + T) }) 1)
          = 1 := by
      refine policyTrace_timer_deadline clock T W fuel' (clock 0 + T) 1
        ⟨j - 1, by omega, ?_⟩
      have harith : 1 + (j - 1) = j := by omega
      rw [harith]
      exact hgt
    rw [hfirst]
    simp [falseCount, htail]

/-- Witness for C5: a fresh three-attempt counter with five available calls
returns false exactly once, and a fresh timer with budget 10 under a clock
advancing by 6 per call returns false exactly once. -/
theorem nextOr_false_exactly_once_with_exhaustion_witness :
    falseCount
      (policyTrace (fun _ => 0) 5
        (Retryer.counter { Count := 3, Wait := 0, count := 0 }) 0) = 1 ∧
    falseCount
      (policyTrace (fun j => j * 6) 4
        (Retryer.timer { Timeout := 10, Wait := 1, stop := none }) 0) = 1 :=
  ⟨nextOr_false_exactly_once_with_exhaustion.2.2.1 3 0 5 (fun _ => 0) (by decide),
   nextOr_false_exactly_once_with_exhaustion.2.2.2 10 1 4 (fun j => j * 6)
     ⟨2, by decide, by decide, by decide⟩⟩

theorem polAfter_shift (pol : Retryer) (clock : Nat → Nat) (i : Nat) :
    ∀ l, polAfter ((pol.NextOr (clock i)).state) clock (i + 1) l
      = polAfter pol clock i (l + 1) := by
  intro l
  induction l with
  | zero => rfl
  | succ l ih =>
    show ((polAfter ((pol.NextOr (clock i)).state) clock (i + 1) l).NextOr
        (clock ((i + 1) + l))).state = _
    rw [ih]
    have harith : (i + 1) + l = i + (l + 1) := by omega
    rw [harith]
    rfl

theorem runLoop_first_success (clock : Nat → Nat) (f : Nat → Attempt) :
    ∀ (k : Nat) pol i j rr s fuel, 1 ≤ k → fuel ≥ k → rr.fail = false →
      (∀ l, l < k → ((polAfter pol clock i l).NextOr (clock (i + l))).ok = true) →
      (∀ l, l + 1 < k → attemptFails (f (j + l)) = true) →
      attemptFails (f (j + (k - 1))) = false →
      (runLoop clock f fuel pol i j rr s).attempts = j + k ∧
      (runLoop clock f fuel pol i j rr s).exhaustCalls = 0 ∧
      (runLoop clock f fuel pol i j rr s).tFailNow = false := by
  intro k
  induction k with
  | zero =>
    intro pol i j rr s fuel h1
    omega
  | succ k ih =>
    intro pol i j rr s fuel h1 hfuel hrr hok hfails hsucc
    obtain ⟨fuel', rfl⟩ : ∃ fuel', fuel = fuel' + 1 := ⟨fuel - 1, by omega⟩
    have hok0 : (pol.NextOr (clock i)).ok = true := by
      have h := hok 0 (by omega)
      simpa [polAfter] using h
    cases k with
    | zero =>
      have hsf : (runAttempt rr (f j)).fail = false := by
        rw [runAttempt_fail, hrr]
        simpa using hsucc
      simp [runLoop, hok0, hsf]
    | succ k' =>
      have hjf : (runAttempt rr (f j)).fail = true := by
        rw [runAttempt_fail, hrr]
        have h := hfails 0 (by omega)
        simpa using h
      obtain ⟨ha, he, ht⟩ :=
        ih ((pol.NextOr (clock i)).state) (i + 1) (j + 1)
          (runAttempt rr (f j)).resetFail (s ++ (pol.NextOr (clock i)).sleeps)
          fuel' (by omega) (by omega) (by simp [R.resetFail])
          (fun l hl => by
            rw [polAfter_shift pol clock i l]
            have harith : (i + 1) + l = i + (l + 1) := by omega
            rw [harith]
            exact hok (l + 1) (by omega))
          (fun l hl => by
            have harith : (j + 1) + l = j + (l + 1) := by omega
            rw [harith]
            exact hfails (l + 1) (by omega))
          (by
            have harith : (j + 1) + ((k' + 1) - 1) = j + ((k' + 1 + 1) - 1) := by
              omega
            rw [harith]
            exact hsucc)
      simp only [runLoop, hok0, hjf, eq_self_iff_true, if_true]
      refine ⟨?_, ?_, ?_⟩
      · rw [ha]
        omega
      · exact he
      · exact ht

/-- C1 (amended): for every policy and callback, if the policy's `NextOr`
grants each of the first `k` calls along the run and attempt `k` (1-based)
is the first whose body leaves the `fail` flag unset, then `RunWith`
executes the callback exactly `k` times and returns without reporting any
failure. -/
theorem runwith_first_success_k_attempts (pol : Retryer) (clock : Nat → Nat)
    (f : Nat → Attempt) (k fuel : Nat) (hk : 1 ≤ k) (hfuel : fuel ≥ k)
    (hok : ∀ l, l < k → ((polAfter pol clock 0 l).NextOr (clock l)).ok = true)
    (hfails : ∀ l, l + 1 < k → attemptFails (f l) = true)
    (hsucc : attemptFails (f (k - 1)) = false) :
    (RunWith pol fuel clock f).attempts = k ∧
    (RunWith pol fuel clock f).exhaustCalls = 0 ∧
    (RunWith pol fuel clock f).tFailNow = false := by
  have h :=
    runLoop_first_success clock f k pol 0 0 { fail := false, output := [] } []
      fuel hk hfuel rfl
      (fun l hl => by simpa using hok l hl)
      (fun l hl => by simpa using hfails l hl)
      (by simpa using hsucc)
  simpa using h

/-- Witness for the amended C1: a three-attempt counter whose callback
fails once and then succeeds performs exactly two attempts and reports no
failure. -/
theorem runwith_first_success_k_attempts_witness :
    (RunWith (Retryer.counter { Count := 3, Wait := 0, count := 0 }) 5 (fun _ => 0)
        (fun l => if l = 0 then [Step.error none [GoFlat.fstr "e"]] else [])).attempts
      = 2 ∧
    (RunWith (Retryer.counter { Count := 3, Wait := 0, count := 0 }) 5 (fun _ => 0)
        (fun l => if l = 0 then [Step.error none [GoFlat.fstr "e"]] else [])).exhaustCalls
      = 0 ∧
    (RunWith (Retryer.counter { Count := 3, Wait := 0, count := 0 }) 5 (fun _ => 0)
        (fun l => if l = 0 then [Step.error none [GoFlat.fstr "e"]] else [])).tFailNow
      = false :=
  runwith_first_success_k_attempts
    (Retryer.counter { Count := 3, Wait := 0, count := 0 }) (fun _ => 0)
    (fun l => if l = 0 then [Step.error none [GoFlat.fstr "e"]] else []) 2 5
    (by decide) (by decide) (by decide)
    (by
      intro l hl
      have hl0 : l = 0 := by omega
      subst hl0
      rfl)
    (by decide)

/-- Counterexample to C1 as stated: with `CountPolicy(1, 0)` and a callback
whose second attempt is the first to leave the flag unset (`k = 2`), the
run performs only one attempt and reports failure — not `k` attempts and a
normal return, because the policy is exhausted first. -/
theorem runwith_first_success_k_attempts_counterexample :
    attemptFails
      ((fun l => if l = 0 then [Step.error none [GoFlat.fstr "e"]] else []) 0)
      = true ∧
    attemptFails
      ((fun l => if l = 0 then [Step.error none [GoFlat.fstr "e"]] else []) 1)
      = false ∧
    (RunWith (Retryer.counter { Count := 1, Wait := 0, count := 0 }) 5 (fun _ => 0)
        (fun l => if l = 0 then [Step.error none [GoFlat.fstr "e"]] else [])).attempts
      = 1 ∧
    (RunWith (Retryer.counter { Count := 1, Wait := 0, count := 0 }) 5 (fun _ => 0)
        (fun l => if l = 0 then [Step.error none [GoFlat.fstr "e"]] else [])).tFailNow
      = true ∧
    ¬ ((RunWith (Retryer.counter { Count := 1, Wait := 0, count := 0 }) 5 (fun _ => 0)
          (fun l => if l = 0 then [Step.error none [GoFlat.fstr "e"]] else [])).attempts
        = 2 ∧
       (RunWith (Retryer.counter { Count := 1, Wait := 0, count := 0 }) 5 (fun _ => 0)
          (fun l => if l = 0 then [Step.error none [GoFlat.fstr "e"]] else [])).tFailNow
        = false) :=
  ⟨rfl, rfl, by decide, by decide, by decide⟩
